import Mathlib

/-!
Verification development for the request-option encoder and the
object-streaming / batch-deletion pipeline of the minio-go client
library.  The `GetObjectOptions` data type and its methods (`Set`,
`SetReqParam`, `AddReqParam`, `SetMatchETag`, `SetMatchETagExcept`,
`SetUnmodified`, `SetModified`, `SetRange`, `Header`, `toQueryValues`)
are shallowly embedded from the Go source; Go maps
(`map[string]string`, `http.Header`, `url.Values`) are embedded as
association lists with first-occurrence lookup, which coincides with
map semantics on the unique-key lists the code constructs.
-/

namespace MinioGo

/-- Embedding of Go `map[string][]string` (both `net/http.Header` and
`net/url.Values` have this shape): an association list from key to the
ordered list of values stored under that key. -/
abbrev MultiMap := List (String × List String)

/-- Lookup: the values stored under `k` (first matching entry), or `[]`
when the key is absent — matching Go map indexing, where a missing key
yields the zero value `nil` slice. -/
def MultiMap.get : MultiMap → String → List String
  | [], _ => []
  | (k₀, vs₀) :: rest, k => if k₀ = k then vs₀ else MultiMap.get rest k

/-- Embedding of `url.Values.Set` / map assignment `m[k] = []string{v}`:
replace the values under `k` by the single value `v`. -/
def MultiMap.setKV (m : MultiMap) (k v : String) : MultiMap :=
  match m with
  | [] => [(k, [v])]
  | (k₀, vs₀) :: rest =>
    if k₀ = k then (k, [v]) :: rest else (k₀, vs₀) :: MultiMap.setKV rest k v

/-- Embedding of `url.Values.Add`: `m[k] = append(m[k], v)`. -/
def MultiMap.addKV (m : MultiMap) (k v : String) : MultiMap :=
  match m with
  | [] => [(k, [v])]
  | (k₀, vs₀) :: rest =>
    if k₀ = k then (k₀, vs₀ ++ [v]) :: rest else (k₀, vs₀) :: MultiMap.addKV rest k v

/-- Well-formedness of the embedding of a Go map as a list: keys are
pairwise distinct (automatically true of every Go map value). -/
def MultiMap.WF (m : MultiMap) : Prop := (m.map Prod.fst).Nodup

instance (m : MultiMap) : Decidable m.WF := by
  unfold MultiMap.WF; infer_instance

/-- Embedding of Go `map[string]string` (the private `headers` field of
`GetObjectOptions`). -/
abbrev StrMap := List (String × String)

/-- Lookup in a `map[string]string`: the first matching entry. -/
def StrMap.get : StrMap → String → Option String
  | [], _ => none
  | (k₀, v₀) :: rest, k => if k₀ = k then some v₀ else StrMap.get rest k

/-- Map assignment `m[k] = v`: replace the first entry with key `k`, or
append a fresh entry. -/
def StrMap.set (m : StrMap) (k v : String) : StrMap :=
  match m with
  | [] => [(k, v)]
  | (k₀, v₀) :: rest =>
    if k₀ = k then (k, v) :: rest else (k₀, v₀) :: StrMap.set rest k v

/-- Keys pairwise distinct, as in every Go map value. -/
def StrMap.WF (m : StrMap) : Prop := (m.map Prod.fst).Nodup

instance (m : StrMap) : Decidable m.WF := by
  unfold StrMap.WF; infer_instance

/-- Embedding of the byte-validity test of Go
`net/textproto.validHeaderFieldByte`: the RFC 7230 token characters
(alphanumerics and the fifteen listed specials; codepoints 39 and 96
are the single-quote and backquote specials). -/
def isTokenChar (c : Char) : Bool :=
  c.isAlphanum || c = '!' || c = '#' || c = '$' || c = '%' || c = '&' ||
    c.toNat = 39 || c = '*' || c = '+' || c = '-' || c = '.' || c = '^' ||
    c = '_' || c.toNat = 96 || c = '|' || c = '~'

/-- The case-folding loop of Go `net/textproto.canonicalMIMEHeaderKey`:
uppercase a letter at the start of a word (start of string or right
after a hyphen), lowercase it otherwise. -/
def canonChars : Bool → List Char → List Char
  | _, [] => []
  | upper, c :: cs =>
    let c₂ := if upper then c.toUpper else c.toLower
    c₂ :: canonChars (c₂ = '-') cs

/-- Embedding of Go `net/http.CanonicalHeaderKey`: canonical MIME form
when every byte is a valid token byte, the key unchanged otherwise. -/
def canonicalHeaderKey (s : String) : String :=
  if s.data.all isTokenChar then String.mk (canonChars true s.data) else s

/-- Embedding of `http.Header.Set`: canonicalise the key, then replace
its values by the single given value. -/
def headerSet (h : MultiMap) (k v : String) : MultiMap :=
  MultiMap.setKV h (canonicalHeaderKey k) v

/-- The invariant the private `headers` field enjoys in the Go code:
keys pairwise distinct (it is a map) and already canonical (every
write goes through `Set`, which canonicalises the key). -/
def headersCanonWF (m : StrMap) : Prop :=
  m.WF ∧ ∀ p ∈ m, canonicalHeaderKey p.1 = p.1

instance (m : StrMap) : Decidable (headersCanonWF m) := by
  unfold headersCanonWF; infer_instance

/-- Modelled from the spec: the error value produced by
`errInvalidArgument` (defined outside the provided sources); the spec
says validating setters fail with `InvalidArgument` carrying a
diagnostic message. -/
structure ErrorResponse where
  Code : String
  Message : String
deriving DecidableEq

/-- Modelled from the spec: `errInvalidArgument(msg)` builds an error
response with code `InvalidArgument` and the given message. -/
def errInvalidArgument (msg : String) : ErrorResponse :=
  { Code := "InvalidArgument", Message := msg }

/-- Embedding of Go `fmt.Sprintf` with verb `%d` / `strconv.Itoa` on an
integer: a minus sign followed by the decimal digits of the absolute
value for negative input, the decimal digits otherwise. -/
def goFormatInt (i : Int) : String :=
  if i < 0 then "-" ++ i.natAbs.repr else i.natAbs.repr

/-- Modelled from the spec: the SSE variant tags of the `encrypt`
package (absent from the provided sources); `Header` only inspects
whether the variant is the customer-key one (SSE-C). -/
inductive SSEType where
  | SSEC
  | SSEKMS
  | S3
deriving DecidableEq

/-- Modelled from the spec: the optional encryption capability
(`encrypt.ServerSide`, absent from the provided sources) carrying the
customer-supplied key material that its header contribution writes. -/
structure ServerSide where
  sseType : SSEType
  key : String
  keyMD5 : String
deriving DecidableEq

/-- Modelled from the spec: the SSE-C header-marshaling contribution —
it owns and overwrites the three customer-key headers it writes. -/
def ServerSide.marshal (s : ServerSide) (h : MultiMap) : MultiMap :=
  headerSet
    (headerSet
      (headerSet h "X-Amz-Server-Side-Encryption-Customer-Algorithm" "AES256")
      "X-Amz-Server-Side-Encryption-Customer-Key" s.key)
    "X-Amz-Server-Side-Encryption-Customer-Key-Md5" s.keyMD5

/-- Modelled from the spec: the name of the internal replication-proxy
request header (the constant `minIOBucketReplicationProxyRequest` is
defined outside the provided sources). -/
def minIOBucketReplicationProxyRequest : String := "X-Minio-Proxy-Request"

/-- Modelled from the spec: the query-parameter policy function
`isStandardQueryValue` (absent from the provided sources); the spec
describes a fixed standard set of protocol-defined keys such as the
versioning and part-number markers. -/
def isStandardQueryValue (qsKey : String) : Bool :=
  qsKey = "versionId" || qsKey = "partNumber"

/-- Modelled from the spec: the query-parameter policy function
`isCustomQueryValue` (absent from the provided sources); the spec
describes a fixed allow-listed set of custom key beginnings for
provider-specific extensions. -/
def isCustomQueryValue (qsKey : String) : Bool :=
  match qsKey.data with
  | c₁ :: c₂ :: _ => c₁ = 'x' && c₂ = '-'
  | _ => false

/-- Modelled from the spec: Go `time.Time` abstracted to the two
observations the embedded source code makes of it: `IsZero()` and
`Format(http.TimeFormat)`. -/
structure GoTime where
  isZero : Bool
  httpFormat : String
deriving DecidableEq

/-- `AdvancedGetOptions` — internal options (replication fields). -/
structure AdvancedGetOptions where
  ReplicationDeleteMarker : Bool
  IsReplicationReadyForDeleteMarker : Bool
  ReplicationProxyRequest : String
deriving DecidableEq

/-- `GetObjectOptions` — additional headers and options for GET
requests: accumulated headers and query parameters plus the optional
encryption capability, version/part selectors, checksum flag and
internal options. -/
structure GetObjectOptions where
  headers : StrMap
  reqParams : MultiMap
  ServerSideEncryption : Option ServerSide
  VersionID : String
  PartNumber : Int
  Checksum : Bool
  Internal : AdvancedGetOptions
deriving DecidableEq

/-- `Set` — unconditionally store a header value under the
canonicalised key (the nil-map initialisation of the Go code is a
no-op in the list embedding). -/
def GetObjectOptions.set (o : GetObjectOptions) (key value : String) :
    GetObjectOptions :=
  { o with headers := StrMap.set o.headers (canonicalHeaderKey key) value }

/-- `Header` — the http.Header projection: copy the accumulated
headers, apply the SSE-C contribution when the capability is present
and of type SSE-C, then the replication-proxy header when the internal
field is non-empty, then the checksum-mode header when requested. -/
def GetObjectOptions.Header (o : GetObjectOptions) : MultiMap :=
  let h := o.headers.foldl (fun acc p => headerSet acc p.1 p.2) []
  let h :=
    match o.ServerSideEncryption with
    | some sse => if sse.sseType = SSEType.SSEC then sse.marshal h else h
    | none => h
  let h :=
    if o.Internal.ReplicationProxyRequest ≠ "" then
      headerSet h minIOBucketReplicationProxyRequest
        o.Internal.ReplicationProxyRequest
    else h
  if o.Checksum then headerSet h "x-amz-checksum-mode" "ENABLED" else h

/-- `SetReqParam` — set a request query parameter; an unsupported key
is ignored and nothing is done. -/
def GetObjectOptions.SetReqParam (o : GetObjectOptions) (key value : String) :
    GetObjectOptions :=
  if !isCustomQueryValue key && !isStandardQueryValue key then o
  else { o with reqParams := MultiMap.setKV o.reqParams key value }

/-- `AddReqParam` — add a request query parameter; an unsupported key
is ignored and nothing is done. -/
def GetObjectOptions.AddReqParam (o : GetObjectOptions) (key value : String) :
    GetObjectOptions :=
  if !isCustomQueryValue key && !isStandardQueryValue key then o
  else { o with reqParams := MultiMap.addKV o.reqParams key value }

/-- `SetMatchETag` — fail with `InvalidArgument` on an empty etag,
otherwise set `If-Match` to the etag wrapped in quotes.  The pair is
(state after the call, returned error). -/
def GetObjectOptions.SetMatchETag (o : GetObjectOptions) (etag : String) :
    GetObjectOptions × Option ErrorResponse :=
  if etag = "" then (o, some (errInvalidArgument "ETag cannot be empty."))
  else (o.set "If-Match" ("\"" ++ etag ++ "\""), none)

/-- `SetMatchETagExcept` — fail with `InvalidArgument` on an empty
etag, otherwise set `If-None-Match` to the etag wrapped in quotes. -/
def GetObjectOptions.SetMatchETagExcept (o : GetObjectOptions) (etag : String) :
    GetObjectOptions × Option ErrorResponse :=
  if etag = "" then (o, some (errInvalidArgument "ETag cannot be empty."))
  else (o.set "If-None-Match" ("\"" ++ etag ++ "\""), none)

/-- `SetUnmodified` — fail with `InvalidArgument` on the zero time,
otherwise set `If-Unmodified-Since` to the HTTP-formatted time. -/
def GetObjectOptions.SetUnmodified (o : GetObjectOptions) (modTime : GoTime) :
    GetObjectOptions × Option ErrorResponse :=
  if modTime.isZero then
    (o, some (errInvalidArgument "Modified since cannot be empty."))
  else (o.set "If-Unmodified-Since" modTime.httpFormat, none)

/-- `SetModified` — fail with `InvalidArgument` on the zero time,
otherwise set `If-Modified-Since` to the HTTP-formatted time. -/
def GetObjectOptions.SetModified (o : GetObjectOptions) (modTime : GoTime) :
    GetObjectOptions × Option ErrorResponse :=
  if modTime.isZero then
    (o, some (errInvalidArgument "Modified since cannot be empty."))
  else (o.set "If-Modified-Since" modTime.httpFormat, none)

/-- `SetRange` — the ordered switch of the source: suffix range for
`start == 0 && end < 0`, open-ended range for `0 < start && end == 0`,
closed range for `0 <= start <= end`, `InvalidArgument` otherwise. -/
def GetObjectOptions.SetRange (o : GetObjectOptions) (start end_ : Int) :
    GetObjectOptions × Option ErrorResponse :=
  if start = 0 ∧ end_ < 0 then
    (o.set "Range" ("bytes=" ++ goFormatInt end_), none)
  else if 0 < start ∧ end_ = 0 then
    (o.set "Range" ("bytes=" ++ goFormatInt start ++ "-"), none)
  else if 0 ≤ start ∧ start ≤ end_ then
    (o.set "Range" ("bytes=" ++ goFormatInt start ++ "-" ++ goFormatInt end_),
      none)
  else
    (o, some (errInvalidArgument
      ("Invalid range specified: start=" ++ goFormatInt start ++
        " end=" ++ goFormatInt end_)))

/-- `toQueryValues` — the url.Values projection: `versionId` when
non-empty, `partNumber` when positive (stringified), then every
accumulated request parameter added value by value. -/
def GetObjectOptions.toQueryValues (o : GetObjectOptions) : MultiMap :=
  let u : MultiMap := []
  let u := if o.VersionID ≠ "" then MultiMap.setKV u "versionId" o.VersionID else u
  let u :=
    if o.PartNumber > 0 then
      MultiMap.setKV u "partNumber" (goFormatInt o.PartNumber)
    else u
  o.reqParams.foldl (fun acc p => p.2.foldl (fun a v => MultiMap.addKV a p.1 v) acc) u

/-- Modelled from the spec: an ObjectDescriptor object record as
produced by enumeration — bucket-relative key, size, version
identifier (the listing implementation is absent from the provided
sources). -/
structure ObjectRecord where
  key : String
  size : Int
  versionID : String
deriving DecidableEq

/-- Modelled from the spec: an item published on the enumeration
stream is either a valid object record or an error terminator, the two
mutually exclusive. -/
inductive StreamItem where
  | record (r : ObjectRecord)
  | errorTerminator (e : String)
deriving DecidableEq

/-- Modelled from the spec: the ObjectStreamProducer run over a store
whose successive page fetches yield the given results.  Each fetched
page's records are published in order; the first failed fetch
publishes exactly one error terminator and ends production. -/
def producePages : List (Except String (List ObjectRecord)) → List StreamItem
  | [] => []
  | Except.ok rs :: rest => rs.map StreamItem.record ++ producePages rest
  | Except.error e :: _ => [StreamItem.errorTerminator e]

/-- Modelled from the spec: grouping of the input identifier sequence
into policy-sized batches (at most `b` identifiers each, at least one,
in input order) by the BatchMutationConsumer. -/
def chunkBatches (b : Nat) : List String → List (List String)
  | [] => []
  | x :: xs => (x :: xs.take (b - 1)) :: chunkBatches b (xs.drop (b - 1))
termination_by l => l.length
decreasing_by
  simp only [List.length_drop, List.length_cons]
  omega

/-- Modelled from the spec: one `deleteBatch` call against a store that
fails exactly the identifiers on which `fails` returns a cause — the
per-item results republished by the consumer for this batch, each as
(identifier, cause). -/
def deleteBatchFailures (fails : String → Option String) (batch : List String) :
    List (String × String) :=
  batch.filterMap (fun id => (fails id).map (fun c => (id, c)))

/-- Modelled from the spec: the complete error stream of the
BatchMutationConsumer — batches are issued in order until the input is
exhausted, each batch's per-item failures are republished, and a
failure in one batch does not prevent subsequent batches. -/
def removeObjectsErrors (b : Nat) (fails : String → Option String)
    (ids : List String) : List (String × String) :=
  ((chunkBatches b ids).map (deleteBatchFailures fails)).flatten

/-- The first step of the header projection as the spec words it:
copy the accumulated headers into a fresh header set. -/
def specCopyStep (o : GetObjectOptions) : MultiMap :=
  o.headers.foldl (fun acc p => headerSet acc p.1 p.2) []

/-- The second step as the spec words it: if an encryption capability
of the customer-key kind is present, invoke its header-marshaling
contribution (which may overwrite keys it owns). -/
def specSSEStep (o : GetObjectOptions) (h : MultiMap) : MultiMap :=
  match o.ServerSideEncryption with
  | some sse => if sse.sseType = SSEType.SSEC then sse.marshal h else h
  | none => h

/-- The third step as the spec words it: set the replication-proxy
header when its triggering internal field is non-empty. -/
def specProxyStep (o : GetObjectOptions) (h : MultiMap) : MultiMap :=
  if o.Internal.ReplicationProxyRequest ≠ "" then
    headerSet h minIOBucketReplicationProxyRequest o.Internal.ReplicationProxyRequest
  else h

/-- The fourth step as the spec words it: set the checksum-mode header
to ENABLED when the checksum flag is set. -/
def specChecksumStep (o : GetObjectOptions) (h : MultiMap) : MultiMap :=
  if o.Checksum then headerSet h "x-amz-checksum-mode" "ENABLED" else h

/-- A concrete options value used to instantiate proved properties. -/
def demoOpts : GetObjectOptions :=
  { headers := []
    reqParams := []
    ServerSideEncryption := none
    VersionID := ""
    PartNumber := 0
    Checksum := false
    Internal :=
      { ReplicationDeleteMarker := false
        IsReplicationReadyForDeleteMarker := false
        ReplicationProxyRequest := "" } }

/-- A concrete options value with every optional feature switched on. -/
def demoOptsFull : GetObjectOptions :=
  { headers := [("X-Custom", "1")]
    reqParams := [("versionId", ["7"]), ("x-extra", ["a", "b"])]
    ServerSideEncryption := some { sseType := SSEType.SSEC, key := "K", keyMD5 := "M" }
    VersionID := "v1"
    PartNumber := 3
    Checksum := true
    Internal :=
      { ReplicationDeleteMarker := false
        IsReplicationReadyForDeleteMarker := false
        ReplicationProxyRequest := "true" } }

/-- The zero `time.Time` value, as observed by the embedded code. -/
def zeroTime : GoTime := { isZero := true, httpFormat := "" }

/-! ### Association-list lemmas for the map embeddings -/

theorem MultiMap.get_setKV (m : MultiMap) (k v k' : String) :
    (m.setKV k v).get k' = if k = k' then [v] else m.get k' := by
  induction m with
  | nil => simp [MultiMap.setKV, MultiMap.get]
  | cons p rest ih =>
    obtain ⟨k₀, vs₀⟩ := p
    by_cases h₀ : k₀ = k
    · subst h₀
      by_cases h : k₀ = k' <;> simp [MultiMap.setKV, MultiMap.get, h]
    · by_cases h : k₀ = k'
      · subst h
        have hne : ¬k = k₀ := fun e => h₀ e.symm
        simp [MultiMap.setKV, MultiMap.get, h₀, hne]
      · simp [MultiMap.setKV, MultiMap.get, h₀, h, ih]

theorem MultiMap.get_addKV (m : MultiMap) (k v k' : String) :
    (m.addKV k v).get k' = if k = k' then m.get k ++ [v] else m.get k' := by
  induction m with
  | nil => simp [MultiMap.addKV, MultiMap.get]
  | cons p rest ih =>
    obtain ⟨k₀, vs₀⟩ := p
    by_cases h₀ : k₀ = k
    · subst h₀
      by_cases h : k₀ = k' <;> simp [MultiMap.addKV, MultiMap.get, h]
    · by_cases h : k₀ = k'
      · subst h
        have hne : ¬k = k₀ := fun e => h₀ e.symm
        simp [MultiMap.addKV, MultiMap.get, h₀, hne]
      · simp [MultiMap.addKV, MultiMap.get, h₀, h, ih]

theorem MultiMap.get_eq_nil_of_not_mem (m : MultiMap) (k : String)
    (h : k ∉ m.map Prod.fst) : m.get k = [] := by
  induction m with
  | nil => rfl
  | cons p rest ih =>
    obtain ⟨k₀, vs₀⟩ := p
    simp only [List.map_cons, List.mem_cons, not_or] at h
    have : k₀ ≠ k := fun e => h.1 e.symm
    simp [MultiMap.get, this, ih h.2]

theorem MultiMap.get_foldl_addKV (vs : List String) (m : MultiMap) (k k' : String) :
    (vs.foldl (fun a v => MultiMap.addKV a k v) m).get k' =
      if k = k' then m.get k ++ vs else m.get k' := by
  induction vs generalizing m with
  | nil => by_cases h : k = k' <;> simp [h]
  | cons v vs ih =>
    simp only [List.foldl_cons, ih, MultiMap.get_addKV]
    by_cases h : k = k' <;> simp [h]

theorem MultiMap.get_foldl_addAll (src : MultiMap) (m : MultiMap) (k : String)
    (hwf : src.WF) :
    (src.foldl (fun acc p => p.2.foldl (fun a v => MultiMap.addKV a p.1 v) acc) m).get k
      = m.get k ++ src.get k := by
  induction src generalizing m with
  | nil => simp [MultiMap.get]
  | cons p rest ih =>
    obtain ⟨k₀, vs₀⟩ := p
    simp only [MultiMap.WF, List.map_cons, List.nodup_cons] at hwf
    have hrest : MultiMap.WF rest := hwf.2
    simp only [List.foldl_cons]
    rw [ih _ hrest, MultiMap.get_foldl_addKV]
    by_cases h : k₀ = k
    · subst h
      have hnil : MultiMap.get rest k₀ = [] :=
        MultiMap.get_eq_nil_of_not_mem rest k₀ hwf.1
      simp [MultiMap.get, hnil]
    · simp [MultiMap.get, h]

theorem StrMap.get_set (m : StrMap) (k v k' : String) :
    (StrMap.set m k v).get k' = if k = k' then some v else m.get k' := by
  induction m with
  | nil => simp [StrMap.set, StrMap.get]
  | cons p rest ih =>
    obtain ⟨k₀, v₀⟩ := p
    by_cases h₀ : k₀ = k
    · subst h₀
      by_cases h : k₀ = k' <;> simp [StrMap.set, StrMap.get, h]
    · by_cases h : k₀ = k'
      · subst h
        have hne : ¬k = k₀ := fun e => h₀ e.symm
        simp [StrMap.set, StrMap.get, h₀, hne]
      · simp [StrMap.set, StrMap.get, h₀, h, ih]

theorem StrMap.get_eq_none_of_not_mem (m : StrMap) (k : String)
    (h : k ∉ m.map Prod.fst) : m.get k = none := by
  induction m with
  | nil => rfl
  | cons p rest ih =>
    obtain ⟨k₀, v₀⟩ := p
    simp only [List.map_cons, List.mem_cons, not_or] at h
    have : k₀ ≠ k := fun e => h.1 e.symm
    simp [StrMap.get, this, ih h.2]

theorem StrMap.keys_set (m : StrMap) (k v : String) :
    (StrMap.set m k v).map Prod.fst =
      if k ∈ m.map Prod.fst then m.map Prod.fst else m.map Prod.fst ++ [k] := by
  induction m with
  | nil => simp [StrMap.set]
  | cons p rest ih =>
    obtain ⟨k₀, v₀⟩ := p
    by_cases h₀ : k₀ = k
    · subst h₀
      simp [StrMap.set]
    · have hne : ¬k = k₀ := fun e => h₀ e.symm
      by_cases h : k ∈ rest.map Prod.fst <;>
        simp [StrMap.set, h₀, hne, h, ih]

theorem StrMap.mem_set (m : StrMap) (k v : String) (p : String × String) :
    p ∈ StrMap.set m k v → p ∈ m ∨ p = (k, v) := by
  induction m with
  | nil =>
    intro h
    simp [StrMap.set] at h
    exact Or.inr h
  | cons q rest ih =>
    obtain ⟨k₀, v₀⟩ := q
    intro h
    by_cases h₀ : k₀ = k
    · simp only [StrMap.set, if_pos h₀, List.mem_cons] at h
      rcases h with h1 | h1
      · exact Or.inr h1
      · exact Or.inl (List.mem_cons_of_mem _ h1)
    · simp only [StrMap.set, if_neg h₀, List.mem_cons] at h
      rcases h with h1 | h1
      · exact Or.inl (h1 ▸ List.mem_cons_self _ _)
      · rcases ih h1 with h2 | h2
        · exact Or.inl (List.mem_cons_of_mem _ h2)
        · exact Or.inr h2

theorem string_append_assoc (a b c : String) : a ++ b ++ c = a ++ (b ++ c) := by
  apply String.ext
  simp [String.data_append, List.append_assoc]

theorem get_headerSet (h : MultiMap) (k v k' : String) :
    (headerSet h k v).get k' =
      if canonicalHeaderKey k = k' then [v] else h.get k' := by
  unfold headerSet
  exact MultiMap.get_setKV h (canonicalHeaderKey k) v k'

theorem headersCanonWF_set (m : StrMap) (k v : String)
    (hwf : headersCanonWF m) (hk : canonicalHeaderKey k = k) :
    headersCanonWF (StrMap.set m k v) := by
  constructor
  · have := hwf.1
    unfold StrMap.WF at this ⊢
    rw [StrMap.keys_set]
    by_cases h : k ∈ m.map Prod.fst
    · simpa [h] using this
    · simp [h, List.nodup_append, this]
  · intro p hp
    rcases StrMap.mem_set m k v p hp with h | h
    · exact hwf.2 p h
    · rw [h]; exact hk

theorem get_copyHeaders (hs : StrMap) (h : MultiMap) (k : String)
    (hwf : headersCanonWF hs) :
    (hs.foldl (fun acc p => headerSet acc p.1 p.2) h).get k =
      match StrMap.get hs k with
      | some v => [v]
      | none => h.get k := by
  induction hs generalizing h with
  | nil => simp [StrMap.get]
  | cons p rest ih =>
    obtain ⟨k₀, v₀⟩ := p
    have hcanon : canonicalHeaderKey k₀ = k₀ :=
      hwf.2 (k₀, v₀) (List.mem_cons_self _ _)
    have hwf1 : k₀ ∉ rest.map Prod.fst ∧ (rest.map Prod.fst).Nodup := by
      have h₁ := hwf.1
      simp only [StrMap.WF, List.map_cons, List.nodup_cons] at h₁
      exact h₁
    have hwfrest : headersCanonWF rest :=
      ⟨hwf1.2, fun q hq => hwf.2 q (List.mem_cons_of_mem _ hq)⟩
    simp only [List.foldl_cons]
    rw [ih _ hwfrest]
    by_cases hk : k₀ = k
    · subst hk
      have hnone : StrMap.get rest k₀ = none :=
        StrMap.get_eq_none_of_not_mem rest k₀ hwf1.1
      simp [StrMap.get, hnone, get_headerSet, hcanon]
    · have hcons : StrMap.get ((k₀, v₀) :: rest) k = StrMap.get rest k := by
        simp [StrMap.get, hk]
      rw [hcons]
      have hpres : (headerSet h k₀ v₀).get k = h.get k := by
        rw [get_headerSet, hcanon]
        simp [hk]
      cases hrk : StrMap.get rest k <;> simp [hpres]

theorem get_marshal (sse : ServerSide) (h : MultiMap) (k : String)
    (h1 : k ≠ "X-Amz-Server-Side-Encryption-Customer-Algorithm")
    (h2 : k ≠ "X-Amz-Server-Side-Encryption-Customer-Key")
    (h3 : k ≠ "X-Amz-Server-Side-Encryption-Customer-Key-Md5") :
    (sse.marshal h).get k = h.get k := by
  unfold ServerSide.marshal
  rw [get_headerSet, get_headerSet, get_headerSet]
  have c1 : canonicalHeaderKey "X-Amz-Server-Side-Encryption-Customer-Algorithm" =
      "X-Amz-Server-Side-Encryption-Customer-Algorithm" := by decide
  have c2 : canonicalHeaderKey "X-Amz-Server-Side-Encryption-Customer-Key" =
      "X-Amz-Server-Side-Encryption-Customer-Key" := by decide
  have c3 : canonicalHeaderKey "X-Amz-Server-Side-Encryption-Customer-Key-Md5" =
      "X-Amz-Server-Side-Encryption-Customer-Key-Md5" := by decide
  rw [c1, c2, c3]
  simp [Ne.symm h1, Ne.symm h2, Ne.symm h3]

/-- Per-key view of the `Header` projection at a key the SSE-C
contribution, the replication-proxy step and the checksum step do not
own: the projected values are exactly the accumulated header value. -/
theorem get_Header_untouched (o : GetObjectOptions) (k : String)
    (hwf : headersCanonWF o.headers)
    (h1 : k ≠ "X-Amz-Server-Side-Encryption-Customer-Algorithm")
    (h2 : k ≠ "X-Amz-Server-Side-Encryption-Customer-Key")
    (h3 : k ≠ "X-Amz-Server-Side-Encryption-Customer-Key-Md5")
    (h4 : k ≠ "X-Minio-Proxy-Request")
    (h5 : k ≠ "X-Amz-Checksum-Mode") :
    MultiMap.get o.Header k =
      match StrMap.get o.headers k with
      | some v => [v]
      | none => [] := by
  unfold GetObjectOptions.Header
  simp only []
  have step1 := get_copyHeaders o.headers [] k hwf
  have hproxy : ∀ h : MultiMap,
      (if o.Internal.ReplicationProxyRequest ≠ "" then
          headerSet h minIOBucketReplicationProxyRequest
            o.Internal.ReplicationProxyRequest
        else h).get k = h.get k := by
    intro h
    by_cases hp : o.Internal.ReplicationProxyRequest ≠ ""
    · rw [if_pos hp, get_headerSet]
      have cp : canonicalHeaderKey minIOBucketReplicationProxyRequest =
          "X-Minio-Proxy-Request" := by decide
      rw [cp]
      simp [Ne.symm h4]
    · rw [if_neg hp]
  have hchk : ∀ h : MultiMap,
      (if o.Checksum then headerSet h "x-amz-checksum-mode" "ENABLED" else h).get k
        = h.get k := by
    intro h
    by_cases hc : o.Checksum
    · rw [if_pos hc, get_headerSet]
      have cc : canonicalHeaderKey "x-amz-checksum-mode" = "X-Amz-Checksum-Mode" := by
        decide
      rw [cc]
      simp [Ne.symm h5]
    · rw [if_neg hc]
  have hsse : ∀ h : MultiMap,
      (match o.ServerSideEncryption with
        | some sse => if sse.sseType = SSEType.SSEC then sse.marshal h else h
        | none => h).get k = h.get k := by
    intro h
    cases hs : o.ServerSideEncryption with
    | none => rfl
    | some sse =>
      by_cases ht : sse.sseType = SSEType.SSEC
      · simp only [if_pos ht]
        exact get_marshal sse h k h1 h2 h3
      · simp only [if_neg ht]
  rw [hchk, hproxy, hsse, step1]
  simp [MultiMap.get]

/-! ### Claim theorems -/

/-- C1: for every pair of integers, `SetRange` behaves as the ordered
case analysis — suffix form when `start = 0` and `end < 0`, else
open-ended form when `start > 0` and `end = 0`, else closed form when
`0 ≤ start ≤ end`, and in every other case failure with
`InvalidArgument` carrying both values, leaving the options
unchanged. -/
theorem setRange_case_analysis (o : GetObjectOptions) (start end_ : Int) :
    (start = 0 ∧ end_ < 0 →
      o.SetRange start end_ =
        (o.set "Range" ("bytes=" ++ goFormatInt end_), none)) ∧
    (¬(start = 0 ∧ end_ < 0) → 0 < start ∧ end_ = 0 →
      o.SetRange start end_ =
        (o.set "Range" ("bytes=" ++ goFormatInt start ++ "-"), none)) ∧
    (¬(start = 0 ∧ end_ < 0) → ¬(0 < start ∧ end_ = 0) →
      0 ≤ start ∧ start ≤ end_ →
      o.SetRange start end_ =
        (o.set "Range" ("bytes=" ++ goFormatInt start ++ "-" ++ goFormatInt end_),
          none)) ∧
    (¬(start = 0 ∧ end_ < 0) → ¬(0 < start ∧ end_ = 0) →
      ¬(0 ≤ start ∧ start ≤ end_) →
      o.SetRange start end_ =
        (o, some (errInvalidArgument
          ("Invalid range specified: start=" ++ goFormatInt start ++
            " end=" ++ goFormatInt end_)))) := by
  unfold GetObjectOptions.SetRange
  refine ⟨fun hc => ?_, fun hn1 hc => ?_, fun hn1 hn2 hc => ?_,
    fun hn1 hn2 hn3 => ?_⟩
  · rw [if_pos hc]
  · rw [if_neg hn1, if_pos hc]
  · rw [if_neg hn1, if_neg hn2, if_pos hc]
  · rw [if_neg hn1, if_neg hn2, if_neg hn3]

theorem setRange_case_analysis_witness :
    demoOpts.SetRange 10 5 =
      (demoOpts,
        some { Code := "InvalidArgument"
               Message := "Invalid range specified: start=10 end=5" }) := by
  rw [(setRange_case_analysis demoOpts 10 5).2.2.2 (by decide) (by decide)
    (by decide)]
  decide

/-- C2: for every negative `end` with `start = 0`, the Range header
value is exactly the string `bytes=` followed by a single minus sign
and the decimal digits of the absolute value of `end` — no double
negative, the sign carried by `end` itself. -/
theorem setRange_suffix_single_minus (o : GetObjectOptions) (end_ : Int)
    (h : end_ < 0) :
    o.SetRange 0 end_ =
      (o.set "Range" ("bytes=-" ++ end_.natAbs.repr), none) := by
  unfold GetObjectOptions.SetRange
  rw [if_pos ⟨rfl, h⟩]
  have hg : goFormatInt end_ = "-" ++ end_.natAbs.repr := by
    unfold goFormatInt
    rw [if_pos h]
  rw [hg, ← string_append_assoc]
  have hb : ("bytes=" ++ "-" : String) = "bytes=-" := by decide
  rw [hb]

theorem setRange_suffix_single_minus_witness :
    demoOpts.SetRange 0 (-500) =
      (demoOpts.set "Range" "bytes=-500", none) := by
  rw [setRange_suffix_single_minus demoOpts (-500) (by decide)]
  decide

/-- C10: the validating setters are atomic on failure — whenever
`SetRange`, `SetUnmodified` or `SetModified` returns an error, the
options value is completely unchanged. -/
theorem setters_atomic_on_failure (o : GetObjectOptions) (start end_ : Int)
    (t : GoTime) :
    ((o.SetRange start end_).2.isSome → (o.SetRange start end_).1 = o) ∧
    ((o.SetUnmodified t).2.isSome → (o.SetUnmodified t).1 = o) ∧
    ((o.SetModified t).2.isSome → (o.SetModified t).1 = o) := by
  refine ⟨?_, ?_, ?_⟩
  · unfold GetObjectOptions.SetRange
    split_ifs <;> simp
  · unfold GetObjectOptions.SetUnmodified
    split_ifs <;> simp
  · unfold GetObjectOptions.SetModified
    split_ifs <;> simp

theorem setters_atomic_on_failure_witness :
    (demoOpts.SetRange 10 5).1 = demoOpts ∧
    (demoOpts.SetUnmodified zeroTime).1 = demoOpts ∧
    (demoOpts.SetModified zeroTime).1 = demoOpts :=
  ⟨(setters_atomic_on_failure demoOpts 10 5 zeroTime).1 (by decide),
    (setters_atomic_on_failure demoOpts 10 5 zeroTime).2.1 (by decide),
    (setters_atomic_on_failure demoOpts 10 5 zeroTime).2.2 (by decide)⟩

/-- C4: for every key rejected by the query-parameter policy (neither
standard nor allow-listed custom) and every value, `SetReqParam` and
`AddReqParam` return with the options state — and hence the
query-values projection — completely unchanged. -/
theorem reqParam_unrecognized_noop (o : GetObjectOptions) (key value : String)
    (hcustom : isCustomQueryValue key = false)
    (hstd : isStandardQueryValue key = false) :
    o.SetReqParam key value = o ∧ o.AddReqParam key value = o ∧
    (o.SetReqParam key value).toQueryValues = o.toQueryValues ∧
    (o.AddReqParam key value).toQueryValues = o.toQueryValues := by
  have h1 : o.SetReqParam key value = o := by
    unfold GetObjectOptions.SetReqParam
    rw [hcustom, hstd]
    rfl
  have h2 : o.AddReqParam key value = o := by
    unfold GetObjectOptions.AddReqParam
    rw [hcustom, hstd]
    rfl
  exact ⟨h1, h2, by rw [h1], by rw [h2]⟩

theorem reqParam_unrecognized_noop_witness :
    demoOptsFull.SetReqParam "bogus" "1" = demoOptsFull ∧
    demoOptsFull.AddReqParam "bogus" "1" = demoOptsFull ∧
    (demoOptsFull.SetReqParam "bogus" "1").toQueryValues =
      demoOptsFull.toQueryValues ∧
    (demoOptsFull.AddReqParam "bogus" "1").toQueryValues =
      demoOptsFull.toQueryValues :=
  reqParam_unrecognized_noop demoOptsFull "bogus" "1" (by decide) (by decide)

/-- C5: the header projection equals the spec composition — copy the
accumulated headers, apply the SSE-C contribution when a customer-key
encryption capability is present, then the replication-proxy header
when its internal field is non-empty, then the checksum-mode header
when the flag is set; the projection is a pure function of the
receiver and mutates nothing. -/
theorem header_projection_steps (o : GetObjectOptions) :
    o.Header = specChecksumStep o (specProxyStep o (specSSEStep o (specCopyStep o))) :=
  rfl

/-- C6: both projections are deterministic in the options value: equal
field contents give equal header sets and equal query-value sets, so
two calls in a row with no intervening mutation agree. -/
theorem projections_deterministic (o o' : GetObjectOptions) :
    (o.headers = o'.headers → o.ServerSideEncryption = o'.ServerSideEncryption →
      o.Internal = o'.Internal → o.Checksum = o'.Checksum →
      o.Header = o'.Header) ∧
    (o.VersionID = o'.VersionID → o.PartNumber = o'.PartNumber →
      o.reqParams = o'.reqParams → o.toQueryValues = o'.toQueryValues) := by
  constructor
  · intro h1 h2 h3 h4
    unfold GetObjectOptions.Header
    rw [h1, h2, h3, h4]
  · intro h1 h2 h3
    unfold GetObjectOptions.toQueryValues
    rw [h1, h2, h3]

theorem projections_deterministic_witness :
    demoOptsFull.Header = demoOptsFull.Header ∧
    demoOptsFull.toQueryValues = demoOptsFull.toQueryValues :=
  ⟨(projections_deterministic demoOptsFull demoOptsFull).1 rfl rfl rfl rfl,
    (projections_deterministic demoOptsFull demoOptsFull).2 rfl rfl rfl⟩

/-- C3: `SetMatchETag` and `SetMatchETagExcept` fail with
`InvalidArgument` on the empty etag leaving the options unchanged;
on a non-empty etag they succeed and `Header` contains `If-Match`
(respectively `If-None-Match`) equal to the etag wrapped in double
quotes. -/
theorem setMatchETag_spec (o : GetObjectOptions) (etag : String)
    (hwf : headersCanonWF o.headers) :
    (etag = "" →
      o.SetMatchETag etag = (o, some (errInvalidArgument "ETag cannot be empty.")) ∧
      o.SetMatchETagExcept etag =
        (o, some (errInvalidArgument "ETag cannot be empty."))) ∧
    (etag ≠ "" →
      (o.SetMatchETag etag).2 = none ∧
      MultiMap.get (o.SetMatchETag etag).1.Header "If-Match" =
        ["\"" ++ etag ++ "\""] ∧
      (o.SetMatchETagExcept etag).2 = none ∧
      MultiMap.get (o.SetMatchETagExcept etag).1.Header "If-None-Match" =
        ["\"" ++ etag ++ "\""]) := by
  constructor
  · intro he
    subst he
    constructor
    · unfold GetObjectOptions.SetMatchETag
      rw [if_pos rfl]
    · unfold GetObjectOptions.SetMatchETagExcept
      rw [if_pos rfl]
  · intro he
    have hset : o.SetMatchETag etag =
        (o.set "If-Match" ("\"" ++ etag ++ "\""), none) := by
      unfold GetObjectOptions.SetMatchETag
      rw [if_neg he]
    have hsetx : o.SetMatchETagExcept etag =
        (o.set "If-None-Match" ("\"" ++ etag ++ "\""), none) := by
      unfold GetObjectOptions.SetMatchETagExcept
      rw [if_neg he]
    rw [hset, hsetx]
    have hc1 : canonicalHeaderKey "If-Match" = "If-Match" := by decide
    have hc2 : canonicalHeaderKey "If-None-Match" = "If-None-Match" := by decide
    have hh1 : (o.set "If-Match" ("\"" ++ etag ++ "\"")).headers =
        StrMap.set o.headers "If-Match" ("\"" ++ etag ++ "\"") := by
      unfold GetObjectOptions.set
      rw [hc1]
    have hh2 : (o.set "If-None-Match" ("\"" ++ etag ++ "\"")).headers =
        StrMap.set o.headers "If-None-Match" ("\"" ++ etag ++ "\"") := by
      unfold GetObjectOptions.set
      rw [hc2]
    refine ⟨rfl, ?_, rfl, ?_⟩
    · have hu := get_Header_untouched (o.set "If-Match" ("\"" ++ etag ++ "\""))
        "If-Match"
        (by rw [hh1]; exact headersCanonWF_set _ _ _ hwf hc1)
        (by decide) (by decide) (by decide) (by decide) (by decide)
      rw [hu, hh1, StrMap.get_set]
      simp
    · have hu := get_Header_untouched (o.set "If-None-Match" ("\"" ++ etag ++ "\""))
        "If-None-Match"
        (by rw [hh2]; exact headersCanonWF_set _ _ _ hwf hc2)
        (by decide) (by decide) (by decide) (by decide) (by decide)
      rw [hu, hh2, StrMap.get_set]
      simp

theorem setMatchETag_spec_witness :
    (demoOpts.SetMatchETag "abc").2 = none ∧
    MultiMap.get (demoOpts.SetMatchETag "abc").1.Header "If-Match" = ["\"abc\""] ∧
    (demoOpts.SetMatchETagExcept "abc").2 = none ∧
    MultiMap.get (demoOpts.SetMatchETagExcept "abc").1.Header "If-None-Match" =
      ["\"abc\""] := by
  have h := (setMatchETag_spec demoOpts "abc" (by decide)).2 (by decide)
  refine ⟨h.1, ?_, h.2.2.1, ?_⟩
  · rw [h.2.1]
    decide
  · rw [h.2.2.2]
    decide

/-- C7: the query-values projection holds, under every key, exactly
the `versionId` value when `VersionID` is non-empty, the decimal
`partNumber` value when `PartNumber > 0`, and then the accumulated
request parameters with multiplicity and per-key order preserved —
and nothing else. -/
theorem toQueryValues_characterization (o : GetObjectOptions) (k : String)
    (hwf : o.reqParams.WF) :
    MultiMap.get o.toQueryValues k =
      (if k = "versionId" ∧ o.VersionID ≠ "" then [o.VersionID] else []) ++
      (if k = "partNumber" ∧ o.PartNumber > 0 then [goFormatInt o.PartNumber]
        else []) ++
      MultiMap.get o.reqParams k := by
  unfold GetObjectOptions.toQueryValues
  rw [MultiMap.get_foldl_addAll _ _ _ hwf]
  congr 1
  by_cases hv : o.VersionID ≠ "" <;> by_cases hp : o.PartNumber > 0 <;>
    by_cases hk1 : k = "versionId" <;> by_cases hk2 : k = "partNumber" <;>
      first
      | (exact absurd (hk1 ▸ hk2) (by decide))
      | simp [hv, hp, hk1, hk2, MultiMap.get_setKV, MultiMap.get, eq_comm]

theorem toQueryValues_characterization_witness :
    MultiMap.get demoOptsFull.toQueryValues "versionId" = ["v1", "7"] := by
  rw [toQueryValues_characterization demoOptsFull "versionId" (by decide)]
  decide

/-- C8: a listing run whose page fetches succeed for a sequence of
pages and then fail produces exactly the concatenation of the
successful pages' records in order followed by exactly one error
terminator, with nothing after it. -/
theorem produce_error_termination (good : List (List ObjectRecord)) (e : String)
    (rest : List (Except String (List ObjectRecord))) :
    producePages (good.map Except.ok ++ Except.error e :: rest) =
      good.flatten.map StreamItem.record ++ [StreamItem.errorTerminator e] := by
  induction good with
  | nil => rfl
  | cons page pages ih =>
    simp only [List.map_cons, List.cons_append, producePages, List.flatten_cons,
      List.map_append, List.append_assoc, List.append_eq, ih]

theorem chunkBatches_flatten (b : Nat) (l : List String) :
    (chunkBatches b l).flatten = l := by
  induction l using chunkBatches.induct b with
  | case1 => simp [chunkBatches]
  | case2 x xs ih =>
    rw [chunkBatches]
    simp only [List.flatten_cons, List.cons_append]
    rw [ih, List.take_append_drop]

theorem flatten_map_filterMap {α β : Type} (f : α → Option β) (L : List (List α)) :
    (L.map (List.filterMap f)).flatten = L.flatten.filterMap f := by
  induction L with
  | nil => rfl
  | cons x xs ih =>
    simp only [List.map_cons, List.flatten_cons, List.filterMap_append, ih]

/-- C9: the batch-deletion pipeline never aborts on an individual item
failure — for every identifier sequence and per-item failure pattern,
the error stream is exactly one failure record per failing occurrence
in input order, all batches contributing. -/
theorem removeObjects_item_failures (b : Nat) (fails : String → Option String)
    (ids : List String) :
    removeObjectsErrors b fails ids =
      ids.filterMap (fun id => (fails id).map (fun c => (id, c))) := by
  calc removeObjectsErrors b fails ids
      = ((chunkBatches b ids).map
          (List.filterMap (fun id => (fails id).map (fun c => (id, c))))).flatten := rfl
    _ = ((chunkBatches b ids).flatten).filterMap
          (fun id => (fails id).map (fun c => (id, c))) :=
        flatten_map_filterMap _ _
    _ = ids.filterMap (fun id => (fails id).map (fun c => (id, c))) := by
        rw [chunkBatches_flatten]

end MinioGo
